import Mathlib

/-!
Verification of the YouTube comment extraction tool
(`src/script/youtube_extraction.py`, class `YouTubeCommentsKeywordExtractor`).

Shallow embedding conventions:
* The remote API is modelled as data passed to each function: a statistics
  oracle `String → Option Statistics` and an explicit page sequence
  (`List SearchPage`, `List CommentPage`).  A page is either a successful
  response (its item list plus whether a `nextPageToken` was present) or a
  raised `HttpError`; the `try/except` blocks of the source become the
  `err` branches of the loop functions.
* Python strings are opaque `String`s except in `extract_video_id`, where
  the character-level behaviour of `str.split` and `in` matters; there a
  string is modelled as `List Char` and `pySplit` / `occursIn` mirror
  Python's `str.split(sep)` (leftmost, non-overlapping) and substring test.
* `list.sort(key=k, reverse=True)` is modelled by `sortByKeyDesc k`,
  a stable insertion sort placing each element before the first already
  placed element whose key is ≤ its own — the same ordering a stable
  descending sort produces.
* Machine integers are `Nat`/`Int` (the counts involved are small and
  Python integers are unbounded anyway).  `datetime` values inside
  `get_date_range_iso` are reduced to the calendar day number (`Int`),
  because `strftime('%Y-%m-%dT00:00:00Z' / 'T23:59:59Z')` only reads the
  date; the fixed rendered time-of-day is kept as a `DayTime` tag.
-/

/-- Stable insert for a descending key sort: walk past elements whose key is
strictly greater, insert before the first element whose key is ≤ the new
element's key. -/
def insertByKey {α : Type} (key : α → Nat) (x : α) : List α → List α
  | [] => [x]
  | y :: ys => if key y ≤ key x then x :: y :: ys else y :: insertByKey key x ys

/-- Model of Python `list.sort(key=key, reverse=True)`: stable sort by
`key`, descending. -/
def sortByKeyDesc {α : Type} (key : α → Nat) (l : List α) : List α :=
  l.foldr (insertByKey key) []

/-- One entry of a `search().list` response page, with the `snippet`
fields flattened. -/
structure SearchItem where
  videoId : String
  title : String
  channelTitle : String
  channelId : String
  publishedAt : String
  description : String
  thumbnailUrl : String
deriving DecidableEq

/-- The `statistics` part of a `videos().list` response entry. -/
structure Statistics where
  viewCount : Nat
  likeCount : Nat
  commentCount : Nat
deriving DecidableEq

/-- The `video_info` dict built in `search_videos_by_keyword`. -/
structure VideoInfo where
  video_id : String
  title : String
  channel : String
  channel_id : String
  published_at : String
  description : String
  thumbnail : String
  view_count : Nat
  like_count : Nat
  comment_count : Nat
deriving DecidableEq

/-- Builds one `video_info` dict from a search item and the statistics
lookup (`stats_map.get(video_id, {})`); absent statistics default to 0. -/
def mkVideoInfo (stats : String → Option Statistics) (item : SearchItem) : VideoInfo :=
  { video_id := item.videoId
    title := item.title
    channel := item.channelTitle
    channel_id := item.channelId
    published_at := item.publishedAt
    description := item.description
    thumbnail := item.thumbnailUrl
    view_count := ((stats item.videoId).map Statistics.viewCount).getD 0
    like_count := ((stats item.videoId).map Statistics.likeCount).getD 0
    comment_count := ((stats item.videoId).map Statistics.commentCount).getD 0 }

/-- Outcome of one `search().list` round trip (including the paired
`videos().list` statistics call): a page of items together with whether a
`nextPageToken` was returned, or a raised `HttpError`. -/
inductive SearchPage where
  | ok (items : List SearchItem) (hasNext : Bool)
  | err
deriving DecidableEq

/-- The `while len(videos) < max_results` loop of
`search_videos_by_keyword`.  A successful page appends all its items (the
requested size `min(50, remaining)` does not clamp the response); `break`
on a missing next-page token; an `HttpError` aborts the loop keeping the
accumulated list. -/
def searchLoop (stats : String → Option Statistics) (max_results : Nat) :
    List SearchPage → List VideoInfo → List VideoInfo
  | [], videos => videos
  | SearchPage.err :: _, videos => videos
  | SearchPage.ok items hasNext :: rest, videos =>
    if videos.length < max_results then
      let videos2 := videos ++ items.map (mkVideoInfo stats)
      if hasNext then searchLoop stats max_results rest videos2 else videos2
    else videos

/-- `search_videos_by_keyword`: run the pagination loop, then
`videos.sort(key=view_count, reverse=True)`.  The keyword and the optional
date window only shape the remote request, which is abstracted by the page
sequence. -/
def search_videos_by_keyword (stats : String → Option Statistics) (_keyword : String)
    (max_results : Nat) (_published_after _published_before : Option String)
    (pages : List SearchPage) : List VideoInfo :=
  sortByKeyDesc VideoInfo.view_count (searchLoop stats max_results pages [])

/-- Number of items in a page (0 for an error). -/
def pageItemCount : SearchPage → Nat
  | SearchPage.ok items _ => items.length
  | SearchPage.err => 0

/-- Items of a page ([] for an error). -/
def pageItems : SearchPage → List SearchItem
  | SearchPage.ok items _ => items
  | SearchPage.err => []

/-- Mirrors the request sizes of the search loop: holds when every page
the loop would consume returns at most the page size requested for it,
`min(50, max_results - accumulated)`. -/
def respectsBatches (max_results : Nat) : List SearchPage → Nat → Bool
  | [], _ => true
  | SearchPage.err :: _, _ => true
  | SearchPage.ok items hasNext :: rest, len =>
    if len < max_results then
      decide (items.length ≤ min 50 (max_results - len)) &&
        (if hasNext then respectsBatches max_results rest (len + items.length) else true)
    else true

/-- Holds when the search loop, started with `len` accumulated records,
consumes every page of the list (all successful, all with a next-page
token, count below the maximum before each fetch) and still wants more
afterwards — i.e. a following error page would actually be fetched. -/
def okRun (max_results : Nat) : List SearchPage → Nat → Bool
  | [], len => decide (len < max_results)
  | SearchPage.ok items true :: rest, len =>
    decide (len < max_results) && okRun max_results rest (len + items.length)
  | _, _ => false

/-- One entry of a `commentThreads().list` response page: the
`topLevelComment` snippet fields plus the thread's reply count.
`authorChannelId` is optional in the response. -/
structure CommentItem where
  commentId : String
  authorDisplayName : String
  authorChannelId : Option String
  textDisplay : String
  likeCount : Nat
  publishedAt : String
  updatedAt : String
  totalReplyCount : Nat
deriving DecidableEq

/-- The `comment_data` dict built in `get_top_comments_by_likes`. -/
structure CommentData where
  video_id : String
  comment_id : String
  author : String
  author_channel_id : String
  text : String
  like_count : Nat
  published_at : String
  updated_at : String
  reply_count : Nat
deriving DecidableEq

/-- Builds one `comment_data` dict; a missing author channel id defaults
to `"N/A"`. -/
def mkCommentData (video_id : String) (item : CommentItem) : CommentData :=
  { video_id := video_id
    comment_id := item.commentId
    author := item.authorDisplayName
    author_channel_id := item.authorChannelId.getD "N/A"
    text := item.textDisplay
    like_count := item.likeCount
    published_at := item.publishedAt
    updated_at := item.updatedAt
    reply_count := item.totalReplyCount }

/-- The reason code carried by an `HttpError` from `commentThreads().list`,
as branched on in the `except` block. -/
inductive CommentErrReason where
  | commentsDisabled
  | videoNotFound
  | other
deriving DecidableEq

/-- Outcome of one `commentThreads().list` round trip. -/
inductive CommentPage where
  | ok (items : List CommentItem) (hasNext : Bool)
  | err (reason : CommentErrReason)
deriving DecidableEq

/-- `fetch_limit = min(max_comments * 5, 100)` — the over-fetch target of
`get_top_comments_by_likes`. -/
def commentFetchLimit (max_comments : Nat) : Nat :=
  min (max_comments * 5) 100

/-- The `while total_fetched < fetch_limit` loop of
`get_top_comments_by_likes`.  An `HttpError` is caught (its reason only
logged) and the loop is left with the comments accumulated so far. -/
def commentLoop (video_id : String) (fetch_limit : Nat) :
    List CommentPage → List CommentData → Nat → List CommentData
  | [], comments, _ => comments
  | CommentPage.err _ :: _, comments, _ => comments
  | CommentPage.ok items hasNext :: rest, comments, total_fetched =>
    if total_fetched < fetch_limit then
      let comments2 := comments ++ items.map (mkCommentData video_id)
      if hasNext then
        commentLoop video_id fetch_limit rest comments2 (total_fetched + items.length)
      else comments2
    else comments

/-- `get_top_comments_by_likes`: paginate up to the over-fetch target,
`comments.sort(key=like_count, reverse=True)`, then `comments[:max_comments]`. -/
def get_top_comments_by_likes (video_id : String) (max_comments : Nat)
    (pages : List CommentPage) : List CommentData :=
  (sortByKeyDesc CommentData.like_count
      (commentLoop video_id (commentFetchLimit max_comments) pages [] 0)).take max_comments

/-- Items of a comment page ([] for an error). -/
def commentPageItems : CommentPage → List CommentItem
  | CommentPage.ok items _ => items
  | CommentPage.err _ => []

/-- Holds when the comment loop, with `n` comments already fetched,
consumes every page of the list and still wants more afterwards. -/
def commentOkRun (fetch_limit : Nat) : List CommentPage → Nat → Bool
  | [], n => decide (n < fetch_limit)
  | CommentPage.ok items true :: rest, n =>
    decide (n < fetch_limit) && commentOkRun fetch_limit rest (n + items.length)
  | _, _ => false

/-- `p` is a prefix of `s` (character-level). -/
def isPre : List Char → List Char → Bool
  | [], _ => true
  | _ :: _, [] => false
  | p :: ps, c :: cs => p == c && isPre ps cs

/-- Python `pat in s` for strings: `pat` occurs as a contiguous substring
of `s`. -/
def occursIn (pat : List Char) : List Char → Bool
  | [] => pat.isEmpty
  | c :: cs => isPre pat (c :: cs) || occursIn pat cs

/-- Fuel-driven worker for `pySplit` (fuel bounds the string length so the
function reduces structurally). -/
def pySplitF (sep : List Char) : Nat → List Char → List (List Char)
  | _, [] => [[]]
  | 0, _ :: _ => [[]]
  | fuel + 1, c :: cs =>
    if 0 < sep.length ∧ isPre sep (c :: cs) = true then
      [] :: pySplitF sep fuel (List.drop sep.length (c :: cs))
    else
      (pySplitF sep fuel cs).modifyHead (fun t => c :: t)

/-- Python `s.split(sep)` for a non-empty separator: leftmost,
non-overlapping occurrences cut the string. -/
def pySplit (sep s : List Char) : List (List Char) :=
  pySplitF sep s.length s

/-- The literal `'youtube.com/watch?v='`. -/
def watchMark : List Char := "youtube.com/watch?v=".toList

/-- The literal `'youtu.be/'`. -/
def shortMark : List Char := "youtu.be/".toList

/-- The literal `'v='`. -/
def vMark : List Char := "v=".toList

/-- The literal `'&'`. -/
def ampMark : List Char := "&".toList

/-- The literal `'?'`. -/
def qMark : List Char := "?".toList

/-- `extract_video_id`: the three recognized forms, in source order.
`url.split('v=')[1].split('&')[0]` becomes a `pySplit` chain; the `[1]`
index never falls back to its default because the guard guarantees at
least one `'v='` occurrence. -/
def extract_video_id (url : List Char) : Option (List Char) :=
  if occursIn watchMark url then
    some ((pySplit ampMark ((pySplit vMark url).getD 1 [])).headD [])
  else if occursIn shortMark url then
    some ((pySplit qMark ((pySplit shortMark url).getD 1 [])).headD [])
  else if url.length == 11 then
    some url
  else
    none

/-- The fixed time-of-day a timestamp of `get_date_range_iso` is rendered
with: `T00:00:00Z` or `T23:59:59Z`. -/
inductive DayTime where
  | startOfDay
  | endOfDay
deriving DecidableEq

/-- An ISO timestamp as produced by `get_date_range_iso`: the calendar
date (as a day number) plus the fixed rendered time-of-day. -/
structure IsoTimestamp where
  date : Int
  time : DayTime
deriving DecidableEq

/-- Python truthiness of an optional integer argument (`elif days_ago_start:`):
`None` and `0` are falsy. -/
def truthyInt : Option Int → Bool
  | none => false
  | some n => n != 0

/-- `get_date_range_iso`.  `now` is the calendar date of `datetime.now()`
(only the date survives the `strftime` patterns; subtracting
`timedelta(days=n)` subtracts `n` from the day number).  An absolute
`start_date` / `end_date` is modelled as the already parsed day number. -/
def get_date_range_iso (now : Int) (days_ago_start days_ago_end : Option Int)
    (start_date end_date : Option Int) : Option IsoTimestamp × Option IsoTimestamp :=
  let published_after :=
    match start_date with
    | some d => some ⟨d, DayTime.startOfDay⟩
    | none =>
      if truthyInt days_ago_start then
        some ⟨now - (days_ago_start.getD 0), DayTime.startOfDay⟩
      else none
  let published_before :=
    match end_date with
    | some d => some ⟨d, DayTime.endOfDay⟩
    | none =>
      if truthyInt days_ago_end then
        some ⟨now - (days_ago_end.getD 0), DayTime.endOfDay⟩
      else none
  (published_after, published_before)

/-- One `video_result` dict of `extract_top_comments_from_videos`. -/
structure VideoResult where
  video_info : VideoInfo
  top_comments : List CommentData
  comments_extracted : Nat
deriving DecidableEq

/-- The `extraction_info` counters of the results dict. -/
structure ExtractionInfo where
  total_videos_processed : Nat
  videos_with_comments : Nat
  extraction_date : String
  top_comments_per_video : Nat
deriving DecidableEq

/-- The results dict produced by `extract_top_comments_from_videos` and
consumed by `save_to_excel`. -/
structure ExtractionResults where
  extraction_info : ExtractionInfo
  videos : List VideoResult
deriving DecidableEq

/-- Python `list.index(x)`: index of the first element equal to `x`
(the source only calls it on members, so the not-found `ValueError` case
is unreachable and mapped to 0). -/
def pyIndex {α : Type} [DecidableEq α] : List α → α → Nat
  | [], _ => 0
  | y :: ys, x => if y = x then 0 else pyIndex ys x + 1

/-- Python `enumerate(xs, i)`. -/
def enumFrom {α : Type} (i : Nat) : List α → List (Nat × α)
  | [] => []
  | x :: xs => (i, x) :: enumFrom (i + 1) xs

/-- One row of the `Top_Comments` sheet. -/
structure DetailRow where
  Video_Rank : Nat
  Video_ID : String
  Video_Title : String
  Channel_Name : String
  Video_Views : Nat
  Video_Likes : Nat
  Video_Published : String
  Comment_Rank : Nat
  Comment_ID : String
  Comment_Author : String
  Comment_Text : String
  Comment_Likes : Nat
  Comment_Published : String
  Reply_Count : Nat
deriving DecidableEq

/-- The detail rows of one video at a given video rank: one row per
comment, `Comment_Rank` from `enumerate(video['top_comments'], 1)`. -/
def detailRowsFor (rank : Nat) (video : VideoResult) : List DetailRow :=
  (enumFrom 1 video.top_comments).map fun ic =>
    { Video_Rank := rank
      Video_ID := video.video_info.video_id
      Video_Title := video.video_info.title
      Channel_Name := video.video_info.channel
      Video_Views := video.video_info.view_count
      Video_Likes := video.video_info.like_count
      Video_Published := video.video_info.published_at
      Comment_Rank := ic.1
      Comment_ID := ic.2.comment_id
      Comment_Author := ic.2.author
      Comment_Text := ic.2.text
      Comment_Likes := ic.2.like_count
      Comment_Published := ic.2.published_at
      Reply_Count := ic.2.reply_count }

/-- The `excel_data` list of `save_to_excel`: the video rank is
`results['videos'].index(video) + 1` — the first index of an entry equal
to this one, not the position of the loop iteration. -/
def excelData (results : ExtractionResults) : List DetailRow :=
  results.videos.flatMap fun video =>
    detailRowsFor (pyIndex results.videos video + 1) video

/-- Modelled from the spec ("video rank (1-based position in the
report)"): detail rows ranked by the entry's own 1-based position, to be
compared with `excelData`. -/
def excelDataSpec (results : ExtractionResults) : List DetailRow :=
  (enumFrom 1 results.videos).flatMap fun jv =>
    detailRowsFor jv.1 jv.2

/-- One row of the `Video_Overview` sheet. -/
structure OverviewRow where
  Rank : Nat
  Video_ID : String
  Title : String
  Channel : String
  Views : Nat
  Likes : Nat
  Comments_Count : Nat
  Published : String
  Comments_Extracted : Nat
deriving DecidableEq

/-- The overview row of one video at a given rank. -/
def overviewRowFor (rank : Nat) (video : VideoResult) : OverviewRow :=
  { Rank := rank
    Video_ID := video.video_info.video_id
    Title := video.video_info.title
    Channel := video.video_info.channel
    Views := video.video_info.view_count
    Likes := video.video_info.like_count
    Comments_Count := video.video_info.comment_count
    Published := video.video_info.published_at
    Comments_Extracted := video.comments_extracted }

/-- The `video_overview` list of `save_to_excel`; the rank again comes
from `results['videos'].index(video) + 1`. -/
def videoOverview (results : ExtractionResults) : List OverviewRow :=
  results.videos.map fun video =>
    overviewRowFor (pyIndex results.videos video + 1) video

/-- Modelled from the spec ("one row per video with rank" = 1-based
position): overview rows ranked by position, to be compared with
`videoOverview`. -/
def videoOverviewSpec (results : ExtractionResults) : List OverviewRow :=
  (enumFrom 1 results.videos).map fun jv => overviewRowFor jv.1 jv.2

/-- A value of the `Summary` sheet (the source mixes counters and
strings in one column). -/
inductive SummaryValue where
  | num (n : Nat)
  | str (s : String)
deriving DecidableEq

/-- The `Summary` sheet rows. -/
def summaryRows (results : ExtractionResults) (totalComments : Nat) :
    List (String × SummaryValue) :=
  [ ("Total Videos Processed", SummaryValue.num results.extraction_info.total_videos_processed)
  , ("Videos with Comments", SummaryValue.num results.extraction_info.videos_with_comments)
  , ("Total Comments Extracted", SummaryValue.num totalComments)
  , ("Extraction Date", SummaryValue.str results.extraction_info.extraction_date)
  , ("Comments per Video", SummaryValue.num results.extraction_info.top_comments_per_video) ]

/-- The workbook written by `save_to_excel` (the spreadsheet sink is
modelled by returning the sheets that would be written). -/
structure Workbook where
  top_comments : List DetailRow
  summary : List (String × SummaryValue)
  video_overview : List OverviewRow
deriving DecidableEq

/-- Filename resolution of `save_to_excel`: a missing (or empty, both
falsy) name gets the timestamped default, a name without the `.xlsx`
extension gets it appended. -/
def resolveFilename (filename : Option String) (timestamp : String) : String :=
  match filename with
  | none => "youtube_top_comments_" ++ timestamp ++ ".xlsx"
  | some s =>
    if s = "" then "youtube_top_comments_" ++ timestamp ++ ".xlsx"
    else if s.endsWith ".xlsx" then s
    else s ++ ".xlsx"

/-- `save_to_excel`: build `excel_data`; if it is empty print
"No data to save" and return `None` writing nothing, otherwise write the
three sheets and return the filename.  The file write is modelled by the
returned `(path, workbook)` pair. -/
def save_to_excel (results : ExtractionResults) (filename : Option String)
    (timestamp : String) : Option (String × Workbook) :=
  let fname := resolveFilename filename timestamp
  let data := excelData results
  if data.isEmpty then none
  else
    some (fname,
      { top_comments := data
        summary := summaryRows results data.length
        video_overview := videoOverview results })

/-- A concrete search item used by witnesses and counterexamples. -/
def demoSearchItem (n : String) : SearchItem :=
  ⟨n, "title " ++ n, "chan", "chanId", "2024-01-01", "descr", "thumb"⟩

/-- A concrete statistics oracle used by witnesses. -/
def demoStats : String → Option Statistics := fun _ => some ⟨1000, 10, 5⟩

/-- A concrete comment item used by witnesses and counterexamples. -/
def demoCommentItem : CommentItem :=
  ⟨"c1", "alice", none, "nice video", 3, "2024-02-02", "2024-02-02", 0⟩

/-- A second concrete comment item with a different like count. -/
def demoCommentItem2 : CommentItem :=
  ⟨"c2", "bob", some "ch2", "ok", 7, "2024-02-03", "2024-02-03", 1⟩

/-- A concrete video record used by the exporter examples. -/
def demoVideoInfo : VideoInfo :=
  ⟨"v1", "T", "C", "cid", "2024-01-01", "d", "th", 10, 2, 1⟩

/-- A video result holding one extracted comment. -/
def demoVideoResult : VideoResult :=
  ⟨demoVideoInfo, [mkCommentData "v1" demoCommentItem], 1⟩

/-- A second, distinct video result. -/
def demoVideoResult2 : VideoResult :=
  ⟨⟨"v2", "T2", "C", "cid", "2024-01-02", "d", "th", 5, 1, 1⟩,
   [mkCommentData "v2" demoCommentItem2], 1⟩

/-- An extraction report whose video sequence contains the same entry
twice — legal output, since cross-page duplicates are not deduplicated. -/
def dupResults : ExtractionResults :=
  ⟨⟨2, 2, "2025-01-01", 1⟩, [demoVideoResult, demoVideoResult]⟩

/-- A duplicate-free extraction report. -/
def nodupResults : ExtractionResults :=
  ⟨⟨2, 2, "2025-01-01", 1⟩, [demoVideoResult, demoVideoResult2]⟩

/-- A report whose only video yielded zero comments: the detail sheet
would be empty. -/
def noCommentResults : ExtractionResults :=
  ⟨⟨1, 0, "2025-01-01", 1⟩, [⟨demoVideoInfo, [], 0⟩]⟩

/-! ## Sorting lemmas -/

/-- Inserting permutes: the result of `insertByKey` is the element consed
onto the list, up to permutation. -/
theorem insertByKey_perm {α : Type} (key : α → Nat) (x : α) (l : List α) :
    (insertByKey key x l).Perm (x :: l) := by
  induction l with
  | nil => simp [insertByKey]
  | cons y ys ih =>
    by_cases h : key y ≤ key x
    · simp [insertByKey, h]
    · simp only [insertByKey, if_neg h]
      exact (ih.cons y).trans (List.Perm.swap x y ys)

/-- `sortByKeyDesc` permutes its input. -/
theorem sortByKeyDesc_perm {α : Type} (key : α → Nat) (l : List α) :
    (sortByKeyDesc key l).Perm l := by
  induction l with
  | nil => simp [sortByKeyDesc]
  | cons x xs ih =>
    have : sortByKeyDesc key (x :: xs) = insertByKey key x (sortByKeyDesc key xs) := rfl
    rw [this]
    exact (insertByKey_perm key x _).trans (ih.cons x)

/-- `sortByKeyDesc` preserves length. -/
theorem sortByKeyDesc_length {α : Type} (key : α → Nat) (l : List α) :
    (sortByKeyDesc key l).length = l.length :=
  (sortByKeyDesc_perm key l).length_eq

/-- Inserting preserves descending sortedness by key. -/
theorem insertByKey_pairwise {α : Type} (key : α → Nat) (x : α) (l : List α)
    (h : l.Pairwise (fun a b => key b ≤ key a)) :
    (insertByKey key x l).Pairwise (fun a b => key b ≤ key a) := by
  induction l with
  | nil => simp [insertByKey]
  | cons y ys ih =>
    rcases List.pairwise_cons.1 h with ⟨hy, hys⟩
    by_cases hk : key y ≤ key x
    · simp only [insertByKey, if_pos hk]
      refine List.pairwise_cons.2 ⟨?_, h⟩
      intro b hb
      rcases List.mem_cons.1 hb with rfl | hb
      · exact hk
      · exact le_trans (hy b hb) hk
    · simp only [insertByKey, if_neg hk]
      refine List.pairwise_cons.2 ⟨?_, ih hys⟩
      intro b hb
      rcases List.mem_cons.1 ((insertByKey_perm key x ys).mem_iff.1 hb) with rfl | h1
      · exact Nat.le_of_lt (Nat.lt_of_not_le hk)
      · exact hy b h1

/-- The output of `sortByKeyDesc` is sorted descending by key. -/
theorem sortByKeyDesc_sorted {α : Type} (key : α → Nat) (l : List α) :
    (sortByKeyDesc key l).Pairwise (fun a b => key b ≤ key a) := by
  induction l with
  | nil => simp [sortByKeyDesc]
  | cons x xs ih => exact insertByKey_pairwise key x _ ih

/-! ## Pagination loop lemmas -/

/-- If every page consumed returns at most its requested size, the loop
never accumulates beyond the maximum. -/
theorem searchLoop_length_le (stats : String → Option Statistics) (m : Nat) :
    ∀ (pages : List SearchPage) (acc : List VideoInfo),
      acc.length ≤ m → respectsBatches m pages acc.length = true →
      (searchLoop stats m pages acc).length ≤ m := by
  intro pages
  induction pages with
  | nil => intro acc hle _; simpa [searchLoop] using hle
  | cons p rest ih =>
    intro acc hle hrb
    cases p with
    | err => simpa [searchLoop] using hle
    | ok items hasNext =>
      by_cases hlt : acc.length < m
      · simp only [respectsBatches, if_pos hlt, Bool.and_eq_true, decide_eq_true_eq] at hrb
        obtain ⟨hlen, hrest⟩ := hrb
        have hlen2 : acc.length + items.length ≤ m := by
          have := Nat.min_le_right 50 (m - acc.length)
          omega
        cases hasNext with
        | true =>
          simp only [searchLoop, if_pos hlt, if_true]
          have hrest' :
              respectsBatches m rest (acc ++ items.map (mkVideoInfo stats)).length = true := by
            simpa [List.length_append, List.length_map] using hrest
          have hle2 : (acc ++ items.map (mkVideoInfo stats)).length ≤ m := by
            simpa [List.length_append, List.length_map] using hlen2
          exact ih _ hle2 hrest'
        | false =>
          simp only [searchLoop, if_pos hlt, if_false]
          simpa [List.length_append, List.length_map] using hlen2
      · simp only [searchLoop, if_neg hlt]
        exact hle

/-- If every page of the sequence holds at most 50 items (the platform's
page-size cap), the loop accumulates at most `max_results + 49` records:
the last fetch starts below the maximum and adds at most one full page. -/
theorem searchLoop_length_overshoot (stats : String → Option Statistics) (m : Nat) :
    ∀ (pages : List SearchPage) (acc : List VideoInfo),
      (∀ p ∈ pages, pageItemCount p ≤ 50) → acc.length ≤ m + 49 →
      (searchLoop stats m pages acc).length ≤ m + 49 := by
  intro pages
  induction pages with
  | nil => intro acc _ hle; simpa [searchLoop] using hle
  | cons p rest ih =>
    intro acc hp hle
    cases p with
    | err => simpa [searchLoop] using hle
    | ok items hasNext =>
      have h50 : items.length ≤ 50 := by
        have := hp (SearchPage.ok items hasNext) (List.mem_cons_self _ _)
        simpa [pageItemCount] using this
      by_cases hlt : acc.length < m
      · have hb : (acc ++ items.map (mkVideoInfo stats)).length ≤ m + 49 := by
          simp only [List.length_append, List.length_map]
          omega
        cases hasNext with
        | true =>
          simp only [searchLoop, if_pos hlt, if_true]
          exact ih _ (fun q hq => hp q (List.mem_cons_of_mem _ hq)) hb
        | false =>
          simp only [searchLoop, if_pos hlt, if_false]
          exact hb
      · simp only [searchLoop, if_neg hlt]
        exact hle

/-- When the loop consumes a run of successful pages and then meets an
error, it returns the initial accumulator extended with every record of
the run — nothing is dropped and nothing propagates. -/
theorem searchLoop_append_err (stats : String → Option Statistics) (m : Nat) :
    ∀ (good rest : List SearchPage) (acc : List VideoInfo),
      okRun m good acc.length = true →
      searchLoop stats m (good ++ SearchPage.err :: rest) acc
        = acc ++ (good.flatMap pageItems).map (mkVideoInfo stats) := by
  intro good
  induction good with
  | nil =>
    intro rest acc _
    simp [searchLoop]
  | cons p good' ih =>
    intro rest acc h
    cases p with
    | err => simp [okRun] at h
    | ok items hasNext =>
      cases hasNext with
      | false => simp [okRun] at h
      | true =>
        simp only [okRun, Bool.and_eq_true, decide_eq_true_eq] at h
        obtain ⟨hlt, hrun⟩ := h
        have hrun' : okRun m good' (acc ++ items.map (mkVideoInfo stats)).length = true := by
          simpa [List.length_append, List.length_map] using hrun
        simp only [List.cons_append, searchLoop, if_pos hlt, if_true, List.append_eq]
        rw [ih rest _ hrun']
        simp [pageItems, List.append_assoc]

/-- Comment-loop analogue of `searchLoop_append_err`: a run of successful
pages followed by an `HttpError` leaves exactly the run's comments. -/
theorem commentLoop_append_err (video_id : String) (fl : Nat) :
    ∀ (good rest : List CommentPage) (r : CommentErrReason)
      (acc : List CommentData) (n : Nat),
      commentOkRun fl good n = true →
      commentLoop video_id fl (good ++ CommentPage.err r :: rest) acc n
        = acc ++ (good.flatMap commentPageItems).map (mkCommentData video_id) := by
  intro good
  induction good with
  | nil =>
    intro rest r acc n _
    simp [commentLoop]
  | cons p good' ih =>
    intro rest r acc n h
    cases p with
    | err r' => simp [commentOkRun] at h
    | ok items hasNext =>
      cases hasNext with
      | false => simp [commentOkRun] at h
      | true =>
        simp only [commentOkRun, Bool.and_eq_true, decide_eq_true_eq] at h
        obtain ⟨hlt, hrun⟩ := h
        simp only [List.cons_append, commentLoop, if_pos hlt, if_true, List.append_eq]
        rw [ih rest r _ _ hrun]
        simp [commentPageItems, List.append_assoc]

/-! ## Claim theorems: Video Search Aggregator and Comment Ranker -/

/-- C3.  For every input page sequence (and every keyword, maximum and
optional date window) the list returned by `search_videos_by_keyword` is
sorted by view count in descending order — the sort runs after the
`try/except`, so this also covers the partial list kept after a request
failure. -/
theorem search_result_sorted_by_views :
    ∀ (stats : String → Option Statistics) (keyword : String) (m : Nat)
      (pa pb : Option String) (pages : List SearchPage),
      (search_videos_by_keyword stats keyword m pa pb pages).Pairwise
        (fun a b => b.view_count ≤ a.view_count) := by
  intro stats keyword m pa pb pages
  exact sortByKeyDesc_sorted VideoInfo.view_count _

/-- C2.  Truncation is by page-loop termination only: (1) when every page
holds at most 50 items (the platform page cap), the result exceeds the
requested maximum by at most 50 records; (2) when every consumed page
returns at most its requested size `min(50, remaining)`, the result never
exceeds the maximum; (3) the maximum can indeed be exceeded when a page
returns more items than requested. -/
theorem search_result_overshoot_bounds :
    (∀ (stats : String → Option Statistics) (keyword : String) (m : Nat)
        (pa pb : Option String) (pages : List SearchPage),
        (∀ p ∈ pages, pageItemCount p ≤ 50) →
        (search_videos_by_keyword stats keyword m pa pb pages).length ≤ m + 50)
    ∧ (∀ (stats : String → Option Statistics) (keyword : String) (m : Nat)
        (pa pb : Option String) (pages : List SearchPage),
        respectsBatches m pages 0 = true →
        (search_videos_by_keyword stats keyword m pa pb pages).length ≤ m)
    ∧ 1 < (search_videos_by_keyword demoStats "k" 1 none none
            [SearchPage.ok [demoSearchItem "a", demoSearchItem "b"] false]).length := by
  refine ⟨?_, ?_, ?_⟩
  · intro stats keyword m pa pb pages hp
    simp only [search_videos_by_keyword]
    rw [sortByKeyDesc_length]
    have := searchLoop_length_overshoot stats m pages [] hp (by simp)
    omega
  · intro stats keyword m pa pb pages hrb
    simp only [search_videos_by_keyword]
    rw [sortByKeyDesc_length]
    exact searchLoop_length_le stats m pages [] (by simp) (by simpa using hrb)
  · decide

/-- C2 witness: the two universal parts applied at a one-page input. -/
theorem search_result_overshoot_bounds_witness :
    (search_videos_by_keyword demoStats "kw" 2 none none
        [SearchPage.ok [demoSearchItem "a"] false]).length ≤ 2 + 50
    ∧ respectsBatches 2 [SearchPage.ok [demoSearchItem "a"] false] 0 = true
    ∧ (search_videos_by_keyword demoStats "kw" 2 none none
        [SearchPage.ok [demoSearchItem "a"] false]).length ≤ 2 :=
  ⟨search_result_overshoot_bounds.1 demoStats "kw" 2 none none _ (by decide),
   by decide,
   search_result_overshoot_bounds.2.1 demoStats "kw" 2 none none _ (by decide)⟩

/-- C5.  A request failure partway through the page sequence does not
propagate: the aggregator returns exactly the records accumulated from
the pages consumed before the failure (as always, sorted by view count) —
stated both as an equation with the sorted accumulation and as a
permutation of the accumulation. -/
theorem search_failure_keeps_accumulated :
    ∀ (stats : String → Option Statistics) (keyword : String) (m : Nat)
      (pa pb : Option String) (good rest : List SearchPage),
      okRun m good 0 = true →
      search_videos_by_keyword stats keyword m pa pb (good ++ SearchPage.err :: rest)
        = sortByKeyDesc VideoInfo.view_count
            ((good.flatMap pageItems).map (mkVideoInfo stats))
      ∧ (search_videos_by_keyword stats keyword m pa pb
          (good ++ SearchPage.err :: rest)).Perm
          ((good.flatMap pageItems).map (mkVideoInfo stats)) := by
  intro stats keyword m pa pb good rest h
  have h0 : okRun m good ([] : List VideoInfo).length = true := by simpa using h
  have heq := searchLoop_append_err stats m good rest [] h0
  constructor
  · simp only [search_videos_by_keyword]
    rw [heq]
    simp
  · simp only [search_videos_by_keyword]
    rw [heq]
    simpa using sortByKeyDesc_perm VideoInfo.view_count
      ((good.flatMap pageItems).map (mkVideoInfo stats))

/-- C5 witness: one successful page, then an error. -/
theorem search_failure_keeps_accumulated_witness :
    okRun 3 [SearchPage.ok [demoSearchItem "a"] true] 0 = true
    ∧ search_videos_by_keyword demoStats "kw" 3 none none
        ([SearchPage.ok [demoSearchItem "a"] true] ++ SearchPage.err :: [])
      = sortByKeyDesc VideoInfo.view_count
          (([SearchPage.ok [demoSearchItem "a"] true].flatMap pageItems).map
            (mkVideoInfo demoStats)) :=
  ⟨by decide,
   (search_failure_keeps_accumulated demoStats "kw" 3 none none
      [SearchPage.ok [demoSearchItem "a"] true] [] (by decide)).1⟩

/-- C4.  For every video identifier, requested top-N and page sequence,
the ranker returns at most N comments, sorted by like count descending,
and its over-fetch candidate target is `min(5*N, 100)`. -/
theorem comment_ranker_length_sorted_overfetch :
    ∀ (video_id : String) (N : Nat) (pages : List CommentPage),
      (get_top_comments_by_likes video_id N pages).length ≤ N
      ∧ (get_top_comments_by_likes video_id N pages).Pairwise
          (fun a b => b.like_count ≤ a.like_count)
      ∧ commentFetchLimit N = min (5 * N) 100 := by
  intro vid N pages
  refine ⟨?_, ?_, ?_⟩
  · simp only [get_top_comments_by_likes]
    rw [List.length_take]
    exact min_le_left _ _
  · simp only [get_top_comments_by_likes]
    exact List.Pairwise.sublist (List.take_sublist _ _)
      (sortByKeyDesc_sorted CommentData.like_count _)
  · simp [commentFetchLimit, Nat.mul_comm]

/-- C1 counterexample: a failure during comment-thread pagination after a
page was already fetched.  The ranker returns the comment from that page,
not the empty sequence the claim states. -/
theorem comment_ranker_midstream_failure_not_empty :
    get_top_comments_by_likes "vid0" 10
      [CommentPage.ok [demoCommentItem] true,
       CommentPage.err CommentErrReason.other] ≠ [] := by
  decide

/-- C1 (amended).  On a remote-call failure of any reason the ranker
does not raise: it returns the comments accumulated from the pages
fetched before the failure, sorted by like count and truncated to N —
which is the empty sequence exactly when the failure hits the first
request. -/
theorem comment_ranker_failure_returns_accumulated :
    (∀ (video_id : String) (N : Nat) (rest : List CommentPage) (r : CommentErrReason),
        get_top_comments_by_likes video_id N (CommentPage.err r :: rest) = [])
    ∧ (∀ (video_id : String) (N : Nat) (good rest : List CommentPage) (r : CommentErrReason),
        commentOkRun (commentFetchLimit N) good 0 = true →
        get_top_comments_by_likes video_id N (good ++ CommentPage.err r :: rest)
          = (sortByKeyDesc CommentData.like_count
              ((good.flatMap commentPageItems).map (mkCommentData video_id))).take N) := by
  constructor
  · intro vid N rest r
    simp [get_top_comments_by_likes, commentLoop, sortByKeyDesc]
  · intro vid N good rest r h
    simp only [get_top_comments_by_likes]
    rw [commentLoop_append_err vid (commentFetchLimit N) good rest r [] 0 h]
    simp

/-- C1 witness for the amended statement: one fetched page, then an
error; the sorted, trimmed page contents come back. -/
theorem comment_ranker_failure_returns_accumulated_witness :
    commentOkRun (commentFetchLimit 2) [CommentPage.ok [demoCommentItem] true] 0 = true
    ∧ get_top_comments_by_likes "vid0" 2
        ([CommentPage.ok [demoCommentItem] true]
          ++ CommentPage.err CommentErrReason.other :: [])
      = (sortByKeyDesc CommentData.like_count
          (([CommentPage.ok [demoCommentItem] true].flatMap commentPageItems).map
            (mkCommentData "vid0"))).take 2 :=
  ⟨by decide,
   comment_ranker_failure_returns_accumulated.2 "vid0" 2
     [CommentPage.ok [demoCommentItem] true] [] CommentErrReason.other (by decide)⟩

/-! ## Claim theorems: Date Range Builder -/

/-- C6 counterexample: with only a relative offset on the end side
(`days_ago_end = 1`, here from day number 20000), the code renders the
end bound with `'%Y-%m-%dT23:59:59Z'` — an end-of-day timestamp, not the
start-of-day `T00:00:00Z` the claim states for every side. -/
theorem date_range_end_side_not_start_of_day :
    (get_date_range_iso 20000 none (some 1) none none).2
        = some ⟨20000 - 1, DayTime.endOfDay⟩
    ∧ DayTime.endOfDay ≠ DayTime.startOfDay := by
  constructor
  · rfl
  · decide

/-- C6 (amended).  With only a relative offset of N > 0 days on a side,
the start side yields the date of now minus N days at start-of-day
(`T00:00:00Z`), while the end side yields that date at end-of-day
(`T23:59:59Z`). -/
theorem date_range_relative_sides :
    ∀ (now n : Int), 0 < n →
      (get_date_range_iso now (some n) none none none).1
          = some ⟨now - n, DayTime.startOfDay⟩
      ∧ (get_date_range_iso now none (some n) none none).2
          = some ⟨now - n, DayTime.endOfDay⟩ := by
  intro now n hn
  have ht : truthyInt (some n) = true := by
    simp [truthyInt]
    omega
  constructor <;> simp [get_date_range_iso, ht]

/-- C6 witness for the amended statement. -/
theorem date_range_relative_sides_witness :
    (0 : Int) < 3
    ∧ (get_date_range_iso 100 (some 3) none none none).1
        = some ⟨100 - 3, DayTime.startOfDay⟩
    ∧ (get_date_range_iso 100 none (some 3) none none).2
        = some ⟨100 - 3, DayTime.endOfDay⟩ :=
  ⟨by decide,
   (date_range_relative_sides 100 3 (by decide)).1,
   (date_range_relative_sides 100 3 (by decide)).2⟩

/-- C10.  A relative offset of exactly 0 days is falsy in Python
(`elif days_ago_start:`), so on either side `some 0` behaves exactly like
passing no offset at all: the bound is absent unless an absolute date is
given — "today" cannot be expressed through the relative parameters. -/
theorem date_range_zero_days_absent :
    ∀ (now : Int) (das dae : Option Int) (sd ed : Option Int),
      get_date_range_iso now (some 0) dae sd ed
          = get_date_range_iso now none dae sd ed
      ∧ get_date_range_iso now das (some 0) sd ed
          = get_date_range_iso now das none sd ed := by
  intro now das dae sd ed
  constructor <;> simp [get_date_range_iso, truthyInt]

/-! ## Report Exporter lemmas -/

/-- `enumFrom` preserves length. -/
theorem enumFrom_length {α : Type} : ∀ (i : Nat) (l : List α),
    (enumFrom i l).length = l.length
  | _, [] => rfl
  | i, _ :: xs => by simp [enumFrom, enumFrom_length (i + 1) xs]

/-- The payload of an `enumFrom` member is a member of the list. -/
theorem mem_of_mem_enumFrom {α : Type} :
    ∀ {l : List α} {k : Nat} {p : Nat × α}, p ∈ enumFrom k l → p.2 ∈ l := by
  intro l
  induction l with
  | nil => intro k p h; simp [enumFrom] at h
  | cons x xs ih =>
    intro k p h
    rcases List.mem_cons.1 h with rfl | h'
    · exact List.mem_cons_self _ _
    · exact List.mem_cons_of_mem _ (ih h')

/-- In a duplicate-free list, the first index of an enumerated member is
its enumeration index. -/
theorem pyIndex_of_mem_enumFrom {α : Type} [DecidableEq α] :
    ∀ (l : List α) (k i : Nat) (v : α), l.Nodup → (i, v) ∈ enumFrom k l →
      pyIndex l v + k = i := by
  intro l
  induction l with
  | nil => intro k i v _ h; simp [enumFrom] at h
  | cons x xs ih =>
    intro k i v hnd h
    rcases List.pairwise_cons.1 hnd with ⟨hx, hxs⟩
    rcases List.mem_cons.1 h with heq | h'
    · obtain ⟨rfl, rfl⟩ := Prod.mk.injEq .. ▸ heq
      simp [pyIndex]
    · have hvmem : v ∈ xs := mem_of_mem_enumFrom h'
      have hxv : ¬ x = v := hx v hvmem
      have := ih (k + 1) i v hxs h'
      simp only [pyIndex, if_neg hxv]
      omega

/-- Collapsing the indices of `enumFrom` under `flatMap`. -/
theorem flatMap_enumFrom {α β : Type} :
    ∀ (l : List α) (k : Nat) (g : α → List β),
      (enumFrom k l).flatMap (fun jv => g jv.2) = l.flatMap g := by
  intro l
  induction l with
  | nil => intro k g; rfl
  | cons x xs ih => intro k g; simp [enumFrom, List.flatMap_cons, ih (k + 1) g]

/-- Collapsing the indices of `enumFrom` under `map`. -/
theorem map_enumFrom {α β : Type} :
    ∀ (l : List α) (k : Nat) (g : α → β),
      (enumFrom k l).map (fun jv => g jv.2) = l.map g := by
  intro l
  induction l with
  | nil => intro k g; rfl
  | cons x xs ih => intro k g; simp [enumFrom, ih (k + 1) g]

/-- The detail sheet has exactly one row per (video, comment) pair. -/
theorem excelData_length :
    ∀ (results : ExtractionResults),
      (excelData results).length
        = (results.videos.flatMap VideoResult.top_comments).length := by
  intro res
  unfold excelData
  rw [List.length_flatMap, List.length_flatMap]
  congr 1
  apply List.map_congr_left
  intro v _
  simp [Function.comp, detailRowsFor, enumFrom_length]

/-! ## Claim theorems: Report Exporter -/

/-- C7 counterexample: in a report whose video sequence holds the same
entry twice, `results['videos'].index(video) + 1` gives both entries the
first occurrence's rank: the detail and overview rank columns read
`[1, 1]`, while ranking by 1-based position (the claim) would read
`[1, 2]`. -/
theorem excel_rank_duplicate_mismatch :
    (excelData dupResults).map DetailRow.Video_Rank = [1, 1]
    ∧ (excelDataSpec dupResults).map DetailRow.Video_Rank = [1, 2]
    ∧ excelData dupResults ≠ excelDataSpec dupResults
    ∧ (videoOverview dupResults).map OverviewRow.Rank = [1, 1]
    ∧ (videoOverviewSpec dupResults).map OverviewRow.Rank = [1, 2]
    ∧ videoOverview dupResults ≠ videoOverviewSpec dupResults := by
  refine ⟨?_, ?_, ?_, ?_, ?_, ?_⟩ <;> decide

/-- C7 (amended).  Every row's video rank equals 1 plus the index of the
first entry equal to that row's video result; whenever the video sequence
has no duplicate entries this is the entry's own 1-based position, i.e.
the sheets agree with position-based ranking. -/
theorem excel_rank_eq_position_of_nodup :
    ∀ (results : ExtractionResults), results.videos.Nodup →
      excelData results = excelDataSpec results
      ∧ videoOverview results = videoOverviewSpec results := by
  intro res h
  constructor
  · unfold excelData excelDataSpec
    rw [← flatMap_enumFrom res.videos 1
        (fun v => detailRowsFor (pyIndex res.videos v + 1) v)]
    apply List.flatMap_congr
    intro jv hjv
    obtain ⟨i, v⟩ := jv
    have hk := pyIndex_of_mem_enumFrom res.videos 1 i v h hjv
    simp only []
    rw [hk]
  · unfold videoOverview videoOverviewSpec
    rw [← map_enumFrom res.videos 1
        (fun v => overviewRowFor (pyIndex res.videos v + 1) v)]
    apply List.map_congr_left
    intro jv hjv
    obtain ⟨i, v⟩ := jv
    have hk := pyIndex_of_mem_enumFrom res.videos 1 i v h hjv
    simp only []
    rw [hk]

/-- C7 witness for the amended statement: a duplicate-free report. -/
theorem excel_rank_eq_position_of_nodup_witness :
    nodupResults.videos.Nodup
    ∧ excelData nodupResults = excelDataSpec nodupResults
    ∧ videoOverview nodupResults = videoOverviewSpec nodupResults :=
  ⟨by decide,
   (excel_rank_eq_position_of_nodup nodupResults (by decide)).1,
   (excel_rank_eq_position_of_nodup nodupResults (by decide)).2⟩

/-- C8.  With zero comment rows across all videos `save_to_excel` writes
nothing and returns the no-data signal (`None`); with at least one
comment row it writes the three sheets and returns the resolved path. -/
theorem save_to_excel_no_data_behavior :
    ∀ (results : ExtractionResults) (filename : Option String) (timestamp : String),
      ((results.videos.flatMap VideoResult.top_comments).length = 0 →
        save_to_excel results filename timestamp = none)
      ∧ ((results.videos.flatMap VideoResult.top_comments).length ≠ 0 →
        save_to_excel results filename timestamp
          = some (resolveFilename filename timestamp,
              { top_comments := excelData results
                summary := summaryRows results (excelData results).length
                video_overview := videoOverview results })) := by
  intro res fn ts
  have hlen := excelData_length res
  constructor
  · intro h0
    have hemp : (excelData res).isEmpty = true := by
      rw [List.isEmpty_iff, ← List.length_eq_zero, hlen]
      exact h0
    simp [save_to_excel, hemp]
  · intro h0
    have hemp : ¬ (excelData res).isEmpty = true := by
      rw [List.isEmpty_iff, ← List.length_eq_zero, hlen]
      exact h0
    simp [save_to_excel, hemp]

/-- C8 witness: a report whose single video yielded no comments maps to
`None`; a populated report maps to the written path and sheets. -/
theorem save_to_excel_no_data_behavior_witness :
    (noCommentResults.videos.flatMap VideoResult.top_comments).length = 0
    ∧ save_to_excel noCommentResults none "20250101" = none
    ∧ (nodupResults.videos.flatMap VideoResult.top_comments).length ≠ 0
    ∧ save_to_excel nodupResults (some "out") "20250101"
        = some (resolveFilename (some "out") "20250101",
            { top_comments := excelData nodupResults
              summary := summaryRows nodupResults (excelData nodupResults).length
              video_overview := videoOverview nodupResults }) :=
  ⟨by decide,
   (save_to_excel_no_data_behavior noCommentResults none "20250101").1 (by decide),
   by decide,
   (save_to_excel_no_data_behavior nodupResults (some "out") "20250101").2 (by decide)⟩

/-! ## Identifier Resolver lemmas -/

/-- A list is a prefix of itself followed by anything. -/
theorem isPre_append_self : ∀ (p s : List Char), isPre p (p ++ s) = true
  | [], _ => rfl
  | c :: ps, s => by simp [isPre, isPre_append_self ps s]

/-- `isPre p` only reads the first `p.length` characters. -/
theorem isPre_take : ∀ (p s : List Char), isPre p s = isPre p (s.take p.length)
  | [], _ => rfl
  | _ :: _, [] => rfl
  | c :: ps, d :: s => by
    simp [isPre, List.take_succ_cons, isPre_take ps s]

/-- Two strings agreeing on their first `p.length` characters agree on
`isPre p`. -/
theorem isPre_congr (p s t : List Char) (h : s.take p.length = t.take p.length) :
    isPre p s = isPre p t := by
  rw [isPre_take p s, h, ← isPre_take p t]

/-- An occurrence in a suffix is an occurrence. -/
theorem occursIn_append_of (p : List Char) : ∀ (x y : List Char),
    occursIn p y = true → occursIn p (x ++ y) = true := by
  intro x
  induction x with
  | nil => intro y h; simpa using h
  | cons c cs ih =>
    intro y h
    simp only [List.cons_append, occursIn, Bool.or_eq_true]
    exact Or.inr (ih y h)

/-- A pattern occurs at the head of itself followed by anything. -/
theorem occursIn_self_append : ∀ (p s : List Char), occursIn p (p ++ s) = true := by
  intro p s
  cases p with
  | nil =>
    cases s with
    | nil => rfl
    | cons c cs => simp [occursIn, isPre]
  | cons c ps =>
    simp only [List.cons_append, occursIn, Bool.or_eq_true]
    exact Or.inl (by simpa using isPre_append_self (c :: ps) s)

/-- The fuel argument of `pySplitF` is irrelevant once it covers the
string length. -/
theorem pySplitF_fuel_eq (sep : List Char) :
    ∀ (f1 f2 : Nat) (s : List Char), s.length ≤ f1 → s.length ≤ f2 →
      pySplitF sep f1 s = pySplitF sep f2 s := by
  intro f1
  induction f1 with
  | zero =>
    intro f2 s h1 _
    have hnil : s = [] := List.length_eq_zero.1 (Nat.le_zero.1 h1)
    subst hnil
    cases f2 <;> rfl
  | succ f1 ih =>
    intro f2 s h1 h2
    cases s with
    | nil => cases f2 <;> rfl
    | cons c cs =>
      cases f2 with
      | zero => simp at h2
      | succ f2 =>
        simp only [List.length_cons] at h1 h2
        simp only [pySplitF]
        by_cases h : 0 < sep.length ∧ isPre sep (c :: cs) = true
        · have hsep := h.1
          rw [if_pos h, if_pos h]
          have hd1 : (List.drop sep.length (c :: cs)).length ≤ f1 := by
            simp only [List.length_drop, List.length_cons]
            omega
          have hd2 : (List.drop sep.length (c :: cs)).length ≤ f2 := by
            simp only [List.length_drop, List.length_cons]
            omega
          rw [ih f2 _ hd1 hd2]
        · rw [if_neg h, if_neg h]
          have hc1 : cs.length ≤ f1 := by omega
          have hc2 : cs.length ≤ f2 := by omega
          rw [ih f2 cs hc1 hc2]

/-- One-step unfolding of `pySplit` on a non-empty string. -/
theorem pySplit_cons (sep : List Char) (c : Char) (cs : List Char) :
    pySplit sep (c :: cs)
      = if 0 < sep.length ∧ isPre sep (c :: cs) = true then
          [] :: pySplit sep (List.drop sep.length (c :: cs))
        else (pySplit sep cs).modifyHead (fun t => c :: t) := by
  show pySplitF sep (c :: cs).length (c :: cs) = _
  simp only [List.length_cons, pySplitF]
  by_cases h : 0 < sep.length ∧ isPre sep (c :: cs) = true
  · have hsep := h.1
    rw [if_pos h, if_pos h]
    congr 1
    exact pySplitF_fuel_eq sep cs.length _ _
      (by simp only [List.length_drop, List.length_cons]; omega) (le_refl _)
  · rw [if_neg h, if_neg h]
    rfl

/-- `pySplit` never returns the empty list of segments. -/
theorem pySplit_ne_nil (sep : List Char) : ∀ (s : List Char), pySplit sep s ≠ [] := by
  intro s
  induction s with
  | nil => simp [pySplit, pySplitF]
  | cons c cs ih =>
    rw [pySplit_cons]
    by_cases h : 0 < sep.length ∧ isPre sep (c :: cs) = true
    · simp [h]
    · rw [if_neg h]
      intro hcontra
      apply ih
      cases hps : pySplit sep cs with
      | nil => rfl
      | cons t ts =>
        rw [hps] at hcontra
        simp [List.modifyHead] at hcontra

/-- `headD` through `modifyHead` on a non-empty list. -/
theorem headD_modifyHead {α : Type} (f : α → α) (l : List α) (d : α) (h : l ≠ []) :
    (l.modifyHead f).headD d = f (l.headD d) := by
  cases l with
  | nil => exact absurd rfl h
  | cons x xs => simp [List.modifyHead]

/-- The first segment of a split is an initial piece of the string. -/
theorem pySplit_head_init (sep : List Char) :
    ∀ (s : List Char), ∃ t, (pySplit sep s).headD [] ++ t = s := by
  intro s
  induction s with
  | nil => exact ⟨[], rfl⟩
  | cons c cs ih =>
    rw [pySplit_cons]
    by_cases h : 0 < sep.length ∧ isPre sep (c :: cs) = true
    · rw [if_pos h]
      exact ⟨c :: cs, rfl⟩
    · rw [if_neg h]
      obtain ⟨t, ht⟩ := ih
      refine ⟨t, ?_⟩
      rw [headD_modifyHead _ _ _ (pySplit_ne_nil sep cs)]
      simp only [List.cons_append, ht]

/-- Whether `sep` matches at a position inside the left part of the
string only depends on the following `sep.length - 1` characters. -/
theorem isPre_boundary (sep : List Char) (c : Char) (a w1 w2 : List Char)
    (h : w1.take (sep.length - 1) = w2.take (sep.length - 1)) :
    isPre sep (c :: (a ++ w1)) = isPre sep (c :: (a ++ w2)) := by
  cases sep with
  | nil => rfl
  | cons s0 ps =>
    apply isPre_congr
    simp only [List.length_cons, List.take_succ_cons]
    congr 1
    rw [List.take_append_eq_append_take, List.take_append_eq_append_take]
    congr 1
    simp only [List.length_cons, Nat.add_sub_cancel] at h
    have hm : ps.length - a.length ≤ ps.length := Nat.sub_le _ _
    calc List.take (ps.length - a.length) w1
        = List.take (ps.length - a.length) (List.take ps.length w1) := by
          rw [List.take_take]
          congr 1
          omega
      _ = List.take (ps.length - a.length) (List.take ps.length w2) := by rw [h]
      _ = List.take (ps.length - a.length) w2 := by
          rw [List.take_take]
          congr 1
          omega

/-- Python split on `a ++ sep ++ b` when `sep` first occurs exactly
after `a`: the first segment is `a` and the rest is the split of `b`. -/
theorem pySplit_append_sep (sep : List Char) (hsep : sep ≠ []) :
    ∀ (a b : List Char), occursIn sep (a ++ sep.dropLast) = false →
      pySplit sep (a ++ (sep ++ b)) = a :: pySplit sep b := by
  intro a
  induction a with
  | nil =>
    intro b _
    cases sep with
    | nil => exact absurd rfl hsep
    | cons s0 ps =>
      simp only [List.nil_append, List.cons_append]
      rw [pySplit_cons]
      rw [if_pos ⟨by simp, by simpa using isPre_append_self (s0 :: ps) b⟩]
      congr 1
      simp only [List.length_cons, List.drop_succ_cons]
      rw [List.drop_left]
  | cons c a' ih =>
    intro b h
    have h' : occursIn sep (c :: (a' ++ sep.dropLast)) = false := by simpa using h
    simp only [occursIn, Bool.or_eq_false_iff] at h'
    obtain ⟨hPre, hRest⟩ := h'
    have hPre2 : isPre sep (c :: (a' ++ (sep ++ b))) = false := by
      rw [isPre_boundary sep c a' (sep ++ b) sep.dropLast ?teq]
      · exact hPre
      case teq =>
        rw [List.take_append_eq_append_take]
        have hz : sep.length - 1 - sep.length = 0 := by omega
        rw [hz, List.take_zero, List.append_nil, List.dropLast_eq_take, List.take_take]
        congr 1
        omega
    simp only [List.cons_append]
    rw [pySplit_cons, if_neg (by simp [hPre2]), ih b hRest]
    rfl

/-- The first segment of the split of `v ++ w`, when `sep` does not
match before the end of `v`: it is `v` extended by some initial piece
of `w`. -/
theorem pySplit_head_append (sep : List Char) :
    ∀ (v w : List Char), occursIn sep (v ++ w.take (sep.length - 1)) = false →
      ∃ r t, (pySplit sep (v ++ w)).headD [] = v ++ r ∧ r ++ t = w := by
  intro v
  induction v with
  | nil =>
    intro w _
    obtain ⟨t, ht⟩ := pySplit_head_init sep w
    exact ⟨(pySplit sep w).headD [], t, by simp, ht⟩
  | cons c v' ih =>
    intro w h
    have h' : occursIn sep (c :: (v' ++ w.take (sep.length - 1))) = false := by simpa using h
    simp only [occursIn, Bool.or_eq_false_iff] at h'
    obtain ⟨hPre, hRest⟩ := h'
    have hPre2 : isPre sep (c :: (v' ++ w)) = false := by
      rw [isPre_boundary sep c v' w (w.take (sep.length - 1)) ?teq]
      · exact hPre
      case teq =>
        rw [List.take_take]
        congr 1
        omega
    obtain ⟨r, t, hr, hrt⟩ := ih w hRest
    simp only [List.cons_append]
    rw [pySplit_cons, if_neg (by simp [hPre2])]
    refine ⟨r, t, ?_, hrt⟩
    rw [headD_modifyHead _ _ _ (pySplit_ne_nil sep _), hr]

/-- When the separator does not occur at all, the split is the whole
string as a single segment. -/
theorem pySplit_no_occurrence (sep : List Char) :
    ∀ (s : List Char), occursIn sep s = false → pySplit sep s = [s] := by
  intro s
  induction s with
  | nil => intro _; rfl
  | cons c cs ih =>
    intro h
    simp only [occursIn, Bool.or_eq_false_iff] at h
    obtain ⟨hPre, hRest⟩ := h
    rw [pySplit_cons, if_neg (by simp [hPre]), ih hRest]
    rfl

/-- `getD` at index 0 is `headD`. -/
theorem getD_zero_eq_headD {α : Type} (l : List α) (d : α) : l.getD 0 d = l.headD d := by
  cases l <;> rfl

/-- `'youtube.com/watch?v='` ends with the `'v='` the code splits on. -/
theorem watchMark_decomp : watchMark = "youtube.com/watch?".toList ++ vMark := by decide

/-- The `'&'` separator is a single character. -/
theorem ampMark_dropLast : ampMark.dropLast = ([] : List Char) := by decide

/-- The `'?'` separator is a single character. -/
theorem qMark_dropLast : qMark.dropLast = ([] : List Char) := by decide

/-- Watch-URL case of the resolver: for a URL of shape
`pre ++ 'youtube.com/watch?v=' ++ id ++ suffix` where `'v='` does not
occur before the marked parameter, the identifier holds no `'&'` and no
`'v='` (true of every canonical identifier, whose alphabet has no `'='`),
and `suffix` is empty or starts the next parameter with `'&'`, the
resolver returns the parameter value. -/
theorem extract_watch_url (pre v suffix : List Char)
    (h0 : occursIn vMark ((pre ++ "youtube.com/watch?".toList) ++ vMark.dropLast) = false)
    (h1 : occursIn vMark (v ++ suffix.take (vMark.length - 1)) = false)
    (h2 : occursIn ampMark v = false)
    (h3 : suffix = [] ∨ ∃ rest, suffix = '&' :: rest) :
    extract_video_id (pre ++ (watchMark ++ (v ++ suffix))) = some v := by
  have hurl : pre ++ (watchMark ++ (v ++ suffix))
      = (pre ++ "youtube.com/watch?".toList) ++ (vMark ++ (v ++ suffix)) := by
    rw [watchMark_decomp]
    simp [List.append_assoc]
  have hocc : occursIn watchMark (pre ++ (watchMark ++ (v ++ suffix))) = true :=
    occursIn_append_of _ pre _ (occursIn_self_append watchMark (v ++ suffix))
  unfold extract_video_id
  rw [if_pos hocc]
  have hsplit : pySplit vMark (pre ++ (watchMark ++ (v ++ suffix)))
      = (pre ++ "youtube.com/watch?".toList) :: pySplit vMark (v ++ suffix) := by
    rw [hurl]
    exact pySplit_append_sep vMark (by decide) _ _ h0
  rw [hsplit, List.getD_cons_succ, getD_zero_eq_headD]
  obtain ⟨r, t, hr, hrt⟩ := pySplit_head_append vMark v suffix h1
  rw [hr]
  rcases h3 with rfl | ⟨rest, rfl⟩
  · obtain ⟨hr0, _⟩ := List.append_eq_nil.1 hrt
    subst hr0
    rw [List.append_nil, pySplit_no_occurrence ampMark v h2]
    rfl
  · cases r with
    | nil =>
      rw [List.append_nil, pySplit_no_occurrence ampMark v h2]
      rfl
    | cons rc r' =>
      simp only [List.cons_append] at hrt
      obtain ⟨hrc, -⟩ := List.cons_eq_cons.mp hrt
      subst hrc
      have hAmp1 : ampMark = ['&'] := by decide
      have hshape : v ++ '&' :: r' = v ++ (ampMark ++ r') := by
        simp [hAmp1]
      rw [hshape, pySplit_append_sep ampMark (by decide) v r' (by
        rw [ampMark_dropLast, List.append_nil]
        exact h2)]
      rfl

/-- Short-link case of the resolver: for a URL of shape
`pre ++ 'youtu.be/' ++ seg ++ suffix` that is not also a watch-URL, with
`'youtu.be/'` not occurring earlier, the path segment holding no `'?'`
and `suffix` empty or a query starting with `'?'`, the resolver returns
the path segment. -/
theorem extract_short_link (pre seg suffix : List Char)
    (h4 : occursIn watchMark (pre ++ (shortMark ++ (seg ++ suffix))) = false)
    (h0 : occursIn shortMark (pre ++ shortMark.dropLast) = false)
    (h1 : occursIn shortMark (seg ++ suffix.take (shortMark.length - 1)) = false)
    (h2 : occursIn qMark seg = false)
    (h3 : suffix = [] ∨ ∃ rest, suffix = '?' :: rest) :
    extract_video_id (pre ++ (shortMark ++ (seg ++ suffix))) = some seg := by
  have hocc : occursIn shortMark (pre ++ (shortMark ++ (seg ++ suffix))) = true :=
    occursIn_append_of _ pre _ (occursIn_self_append shortMark (seg ++ suffix))
  unfold extract_video_id
  rw [if_neg (by simp [h4]), if_pos hocc]
  have hsplit : pySplit shortMark (pre ++ (shortMark ++ (seg ++ suffix)))
      = pre :: pySplit shortMark (seg ++ suffix) :=
    pySplit_append_sep shortMark (by decide) _ _ h0
  rw [hsplit, List.getD_cons_succ, getD_zero_eq_headD]
  obtain ⟨r, t, hr, hrt⟩ := pySplit_head_append shortMark seg suffix h1
  rw [hr]
  rcases h3 with rfl | ⟨rest, rfl⟩
  · obtain ⟨hr0, _⟩ := List.append_eq_nil.1 hrt
    subst hr0
    rw [List.append_nil, pySplit_no_occurrence qMark seg h2]
    rfl
  · cases r with
    | nil =>
      rw [List.append_nil, pySplit_no_occurrence qMark seg h2]
      rfl
    | cons rc r' =>
      simp only [List.cons_append] at hrt
      obtain ⟨hrc, -⟩ := List.cons_eq_cons.mp hrt
      subst hrc
      have hQ1 : qMark = ['?'] := by decide
      have hshape : seg ++ '?' :: r' = seg ++ (qMark ++ r') := by
        simp [hQ1]
      rw [hshape, pySplit_append_sep qMark (by decide) seg r' (by
        rw [qMark_dropLast, List.append_nil]
        exact h2)]
      rfl

/-- Bare-identifier case: an 11-character string matching neither URL
marker is returned literally. -/
theorem extract_bare (url : List Char)
    (h1 : occursIn watchMark url = false) (h2 : occursIn shortMark url = false)
    (h3 : url.length = 11) :
    extract_video_id url = some url := by
  unfold extract_video_id
  rw [if_neg (by simp [h1]), if_neg (by simp [h2]), if_pos (by simp [h3])]

/-- No-match case: anything that matches neither URL marker and is not
11 characters long resolves to `none`. -/
theorem extract_no_match (url : List Char)
    (h1 : occursIn watchMark url = false) (h2 : occursIn shortMark url = false)
    (h3 : url.length ≠ 11) :
    extract_video_id url = none := by
  unfold extract_video_id
  rw [if_neg (by simp [h1]), if_neg (by simp [h2]), if_neg (by simp [h3])]

/-! ## Claim theorem: Identifier Resolver -/

/-- C9.  The resolver recognizes exactly the three source forms, in
order: a watch-URL containing `'youtube.com/watch?v='` yields the `v=`
parameter value up to the next `'&'`; a short-link containing
`'youtu.be/'` yields the path segment up to `'?'`; any other string of
exactly 11 characters is returned literally; everything else yields no
match. -/
theorem extract_video_id_contract :
    (∀ (pre v suffix : List Char),
      occursIn vMark ((pre ++ "youtube.com/watch?".toList) ++ vMark.dropLast) = false →
      occursIn vMark (v ++ suffix.take (vMark.length - 1)) = false →
      occursIn ampMark v = false →
      (suffix = [] ∨ ∃ rest, suffix = '&' :: rest) →
      extract_video_id (pre ++ (watchMark ++ (v ++ suffix))) = some v)
    ∧ (∀ (pre seg suffix : List Char),
      occursIn watchMark (pre ++ (shortMark ++ (seg ++ suffix))) = false →
      occursIn shortMark (pre ++ shortMark.dropLast) = false →
      occursIn shortMark (seg ++ suffix.take (shortMark.length - 1)) = false →
      occursIn qMark seg = false →
      (suffix = [] ∨ ∃ rest, suffix = '?' :: rest) →
      extract_video_id (pre ++ (shortMark ++ (seg ++ suffix))) = some seg)
    ∧ (∀ (url : List Char),
      occursIn watchMark url = false → occursIn shortMark url = false →
      url.length = 11 → extract_video_id url = some url)
    ∧ (∀ (url : List Char),
      occursIn watchMark url = false → occursIn shortMark url = false →
      url.length ≠ 11 → extract_video_id url = none) :=
  ⟨extract_watch_url, extract_short_link, extract_bare, extract_no_match⟩

/-- C9 witness: each of the four recognized cases at a concrete input —
a full watch-URL with a trailing parameter, a short-link with a query, a
bare 11-character identifier, and a 12-character non-URL string. -/
theorem extract_video_id_contract_witness :
    extract_video_id
        ("https://www.".toList ++ (watchMark ++ ("dQw4w9WgXcQ".toList ++ ('&' :: "t=43s".toList))))
      = some ("dQw4w9WgXcQ".toList)
    ∧ extract_video_id
        ("https://".toList ++ (shortMark ++ ("dQw4w9WgXcQ".toList ++ ('?' :: "t=43".toList))))
      = some ("dQw4w9WgXcQ".toList)
    ∧ extract_video_id ("dQw4w9WgXcQ".toList) = some ("dQw4w9WgXcQ".toList)
    ∧ extract_video_id ("hello world!".toList) = none :=
  ⟨extract_video_id_contract.1 "https://www.".toList "dQw4w9WgXcQ".toList ('&' :: "t=43s".toList)
      (by decide) (by decide) (by decide) (Or.inr ⟨"t=43s".toList, rfl⟩),
   extract_video_id_contract.2.1 "https://".toList "dQw4w9WgXcQ".toList ('?' :: "t=43".toList)
      (by decide) (by decide) (by decide) (by decide) (Or.inr ⟨"t=43".toList, rfl⟩),
   extract_video_id_contract.2.2.1 "dQw4w9WgXcQ".toList (by decide) (by decide) (by decide),
   extract_video_id_contract.2.2.2 "hello world!".toList (by decide) (by decide) (by decide)⟩
